import Mathlib

/-!
Verification development for the Lumina Studio promo-video generator
(`src/app/src/app/page.tsx`).

JavaScript strings are embedded as `List Char` (named `Str` below); JS
numbers appearing in the pipeline are embedded as `ℚ` (all arithmetic the
code performs on them is exact: divisions, `Math.max`, `Math.round`,
`Math.floor` on non-negative values), and integer-valued quantities
(frame counters, indices) as `ℕ`.  Canvas geometry (coordinates, radii,
`Math.sin`/`Math.cos` offsets) does not affect any property verified
here and is not tracked; the canvas 2D context is modelled by its
alpha/fill paint state, its save/restore stack, and a log of the fill
operations performed.
-/

namespace Lumina

/-- JS strings as lists of characters. -/
abbrev Str := List Char

/-- JS `String.prototype.trim`: whitespace stripped from both ends. -/
def trim (s : Str) : Str :=
  ((s.dropWhile Char.isWhitespace).reverse.dropWhile Char.isWhitespace).reverse

/-- A scene record: `{ title: string; body?: string }` (page.tsx lines 5-8).
`body` is `none` when the JS value is `undefined`. -/
structure Scene where
  title : Str
  body : Option Str
deriving DecidableEq

/-- Frame rate constant `FPS = 30` (page.tsx line 12). -/
def FPS : Nat := 30

/-- Parsing of one (already trimmed, non-empty) script line, from the body of
the `scenes` memo (page.tsx lines 68-71):
`const [title, body] = line.split("|").map((segment) => segment.trim());`.
JS `split` never returns an empty array, so `title` is the first segment;
`body` is the second segment when it exists and `undefined` otherwise. -/
def parseLine (line : Str) : Scene :=
  let segments := (line.splitOn '|').map trim
  { title := segments.headD [], body := segments[1]? }

/-- The `scenes` memo (page.tsx lines 63-72): split the script on newlines,
trim each line, drop empty lines (`filter(Boolean)`), and parse the rest. -/
def parseScript (script : Str) : List Scene :=
  (((script.splitOn '\n').map trim).filter (fun line => !line.isEmpty)).map parseLine

/-- One step of the greedy word-wrap loop (page.tsx lines 605-613), acting on
the state `(lines, currentLine)`:
`const testLine = currentLine.length === 0 ? word : currentLine + " " + word;`
and commit `currentLine` when `measureText(testLine).width > maxWidth` while
`currentLine` is non-empty. -/
def wrapStep (measure : Str → ℚ) (maxWidth : ℚ) (st : List Str × Str) (word : Str) :
    List Str × Str :=
  let lines := st.1
  let currentLine := st.2
  let testLine := if currentLine.length = 0 then word else currentLine ++ ' ' :: word
  if measure testLine > maxWidth ∧ currentLine.length > 0 then
    (lines ++ [currentLine], word)
  else
    (lines, testLine)

/-- The line-computation part of `wrapText` (page.tsx lines 601-617):
`const words = text.split(" ");` then the greedy loop, then
`if (currentLine.length > 0) lines.push(currentLine);`.
`measure` stands for `context.measureText(·).width` under the current font. -/
def wrapLines (measure : Str → ℚ) (maxWidth : ℚ) (text : Str) : List Str :=
  let words := text.splitOn ' '
  let st := words.foldl (wrapStep measure maxWidth) ([], [])
  if st.2.length > 0 then st.1 ++ [st.2] else st.1

/-- `framesPerScene = Math.max(1, Math.round(sceneDuration * FPS))`
(page.tsx line 274).  Mathlib's `round` on `ℚ` is `⌊x + 1/2⌋`, which is
exactly JS `Math.round`. -/
def framesPerSceneOf (sceneDuration : ℚ) : Nat :=
  (max 1 (round (sceneDuration * (FPS : ℚ)))).toNat

/-- `sceneIndex = Math.min(scenes.length - 1, Math.floor(currentFrame / framesPerScene))`
(page.tsx lines 286-289). -/
def sceneIndexOf (sceneCount framesPerScene currentFrame : Nat) : Nat :=
  min (sceneCount - 1) (currentFrame / framesPerScene)

/-- `fadeSpan = Math.max(6, Math.floor(framesPerScene / 6))` (page.tsx line 292). -/
def fadeSpanOf (framesPerScene : Nat) : Nat :=
  max 6 (framesPerScene / 6)

/-- The per-frame opacity computation (page.tsx lines 291-299), with
`frameWithinScene = currentFrame % framesPerScene`.  The comparison
`frameWithinScene > framesPerScene - fadeSpan` is JS number arithmetic, so
the subtraction is taken in `ℚ` (it may be negative). -/
def opacityOf (framesPerScene currentFrame : Nat) : ℚ :=
  let frameWithinScene := currentFrame % framesPerScene
  let fadeSpan := fadeSpanOf framesPerScene
  if frameWithinScene < fadeSpan then
    (frameWithinScene : ℚ) / (fadeSpan : ℚ)
  else if (frameWithinScene : ℚ) > (framesPerScene : ℚ) - (fadeSpan : ℚ) then
    max 0 (((framesPerScene : ℚ) - (frameWithinScene : ℚ)) / (fadeSpan : ℚ))
  else
    1

/-- State of the frame-advancing loop: the `currentFrame` counter (page.tsx
line 276) and whether the driver has stopped scheduling frames (the `else`
branch of lines 339-346, where `recorder.stop()` is issued). -/
structure DriverState where
  currentFrame : Nat
  stopped : Bool
deriving DecidableEq

/-- The tail of one `renderFrame` invocation (page.tsx lines 338-346):
`currentFrame += 1; if (currentFrame <= totalFrames) requestAnimationFrame(renderFrame)
else { rafRef.current = null; recorder.stop(); }`.  Once stopped, no further
step is scheduled, so a stopped state is absorbing. -/
def driverStep (totalFrames : Nat) (s : DriverState) : DriverState :=
  if s.stopped then s
  else
    let next := s.currentFrame + 1
    if next ≤ totalFrames then { currentFrame := next, stopped := false }
    else { currentFrame := next, stopped := true }

/-- The ordered codec preference list `MIME_PREFERENCE` (page.tsx lines 20-25). -/
def MIME_PREFERENCE : List Str :=
  ["video/webm;codecs=vp9".toList,
   "video/webm;codecs=vp8".toList,
   "video/webm;codecs=h264".toList,
   "video/webm".toList]

/-- The browser environment facts `handleGenerate` consults: whether
`MediaRecorder` exists, whether `canvasRef.current` is non-null, whether
`canvas.getContext("2d")` succeeds, and `MediaRecorder.isTypeSupported`. -/
structure GenEnv where
  mediaRecorderSupported : Bool
  canvasAvailable : Bool
  contextAvailable : Bool
  isTypeSupported : Str → Bool

/-- Outcome of a generate request: either an early failure with the exact
user-facing message set via `setRenderError`, or a started capture session
(the point at which the code constructs the `MediaRecorder`, creates the
chunk buffer, calls `recorder.start()` and begins the frame loop). -/
inductive GenOutcome where
  | failed (message : Str)
  | started (mimeType : Str) (framesPerScene totalFrames : Nat)

def ERR_NO_MEDIARECORDER : Str := "MediaRecorder is not supported in this browser.".toList

def ERR_NO_CANVAS : Str := "Canvas unavailable.".toList

def ERR_NO_SCENES : Str := "Add at least one scene to generate a video.".toList

def ERR_NO_CONTEXT : Str := "Could not access the drawing context.".toList

def ERR_NO_CODEC : Str := "No supported video codecs found for this browser.".toList

/-- The guard sequence of `handleGenerate` (page.tsx lines 209-275), in source
order: `MediaRecorder` support, canvas availability, `scenes.length === 0`,
2D-context acquisition, codec probing (`MIME_PREFERENCE.find(isTypeSupported)`),
and finally the start of the capture session with
`totalFrames = framesPerScene * scenes.length`. -/
def handleGenerate (env : GenEnv) (script : Str) (sceneDuration : ℚ) : GenOutcome :=
  if !env.mediaRecorderSupported then .failed ERR_NO_MEDIARECORDER
  else if !env.canvasAvailable then .failed ERR_NO_CANVAS
  else
    let scenes := parseScript script
    if scenes.length = 0 then .failed ERR_NO_SCENES
    else if !env.contextAvailable then .failed ERR_NO_CONTEXT
    else
      match MIME_PREFERENCE.find? env.isTypeSupported with
      | none => .failed ERR_NO_CODEC
      | some mimeType =>
        let framesPerScene := framesPerSceneOf sceneDuration
        .started mimeType framesPerScene (framesPerScene * scenes.length)

/-- Modelled from the spec's wording of the parser property ("title == segment
before first delimiter (trimmed)"): the trimmed text of the line before the
first `|`. -/
def specTitle (line : Str) : Str :=
  trim (line.takeWhile (fun ch => ch != '|'))

/-- Modelled from the spec's wording of the parser property ("body == segment
after (trimmed)"): the trimmed segment following the first `|`, that is, the
text between the first `|` and the next `|` (or the end of the line). -/
def specBodySegment (line : Str) : Str :=
  trim (((line.dropWhile (fun ch => ch != '|')).tail).takeWhile (fun ch => ch != '|'))

/-- Proof-internal characterisation of a line the greedy wrap can emit: it is
the space-join of a non-empty list of space-free words on which the wrap loop
runs to completion without committing any line.  Every line `wrapLines`
outputs satisfies this, and any such line re-wraps to itself. -/
def GoodLine (measure : Str → ℚ) (maxWidth : ℚ) (L : Str) : Prop :=
  ∃ ws : List Str, ws ≠ [] ∧ (∀ w ∈ ws, ' ' ∉ w) ∧ L = [' '].intercalate ws ∧
    ws.foldl (wrapStep measure maxWidth) ([], []) = ([], L)

/-- A canvas fill style: a plain color string, or a gradient with its color
stops (gradient geometry is not tracked). -/
inductive FillStyle where
  | color (value : Str)
  | linearGradient (stops : List (ℚ × Str))
  | radialGradient (stops : List (ℚ × Str))
deriving DecidableEq

/-- A logged fill operation together with the alpha and fill style in effect
when it executed. -/
inductive PaintOp where
  | fillRect (alpha : ℚ) (style : FillStyle)
  | fillCircle (alpha : ℚ) (style : FillStyle)
  | fillTextOp (text : Str) (alpha : ℚ) (style : FillStyle)
deriving DecidableEq

/-- The modelled canvas 2D context: current `globalAlpha` and `fillStyle`,
the `save`/`restore` stack of those two fields, and the log of fill
operations performed so far. -/
structure Ctx where
  globalAlpha : ℚ
  fillStyle : FillStyle
  stack : List (ℚ × FillStyle)
  ops : List PaintOp
deriving DecidableEq

/-- `context.save()`. -/
def Ctx.save (c : Ctx) : Ctx :=
  { c with stack := (c.globalAlpha, c.fillStyle) :: c.stack }

/-- `context.restore()` (a no-op on an empty stack, as on a real canvas). -/
def Ctx.restore (c : Ctx) : Ctx :=
  match c.stack with
  | [] => c
  | (a, f) :: rest => { c with globalAlpha := a, fillStyle := f, stack := rest }

/-- `context.globalAlpha = a`. -/
def Ctx.setAlpha (c : Ctx) (a : ℚ) : Ctx :=
  { c with globalAlpha := a }

/-- `context.fillStyle = f`. -/
def Ctx.setFill (c : Ctx) (f : FillStyle) : Ctx :=
  { c with fillStyle := f }

/-- `context.fillRect(...)`: logs a rectangle fill under the current state. -/
def Ctx.fillRect (c : Ctx) : Ctx :=
  { c with ops := c.ops ++ [.fillRect c.globalAlpha c.fillStyle] }

/-- `context.beginPath(); context.arc(...); context.fill()`: logs a circle
fill under the current state. -/
def Ctx.fillCircle (c : Ctx) : Ctx :=
  { c with ops := c.ops ++ [.fillCircle c.globalAlpha c.fillStyle] }

/-- `context.fillText(t, ...)`: logs a text fill under the current state. -/
def Ctx.fillText (c : Ctx) (t : Str) : Ctx :=
  { c with ops := c.ops ++ [.fillTextOp t c.globalAlpha c.fillStyle] }

/-- `drawBackground` (page.tsx lines 131-173): paint the full-canvas linear
gradient, then the five decorative blobs; blob `index` uses the accent color
for even indices and the primary color for odd indices, with stops
`baseColor + "30"` and `baseColor + "00"`.  The function changes `fillStyle`
for each paint and performs no `save`/`restore`. -/
def drawBackground (backgroundStart backgroundEnd accentColor primaryColor : Str)
    (progress : ℚ) (c : Ctx) : Ctx :=
  let _ := progress
  let c := (c.setFill (.linearGradient [(0, backgroundStart), (1, backgroundEnd)])).fillRect
  let blobCount := 5
  (List.range blobCount).foldl
    (fun c index =>
      let baseColor := if index % 2 = 0 then accentColor else primaryColor
      ((c.setFill (.radialGradient
        [(0, baseColor ++ "30".toList), (1, baseColor ++ "00".toList)])).fillCircle))
    c

/-- The drawing part of `wrapText` (page.tsx lines 619-627): one `fillText`
per wrapped line (vertical placement is geometry and is not tracked). -/
def wrapText (measure : Str → ℚ) (text : Str) (maxWidth : ℚ) (c : Ctx) : Ctx :=
  (wrapLines measure maxWidth text).foldl Ctx.fillText c

/-- The body part of `drawScene` (page.tsx lines 192-202): `if (scene.body)`
is JS truthiness, so the body is painted exactly when it is defined and
non-empty; it is painted in the accent color with max width 900. -/
def drawSceneBody (measureBody : Str → ℚ) (accentColor : Str) (body : Option Str)
    (c : Ctx) : Ctx :=
  match body with
  | some body =>
    if !body.isEmpty then wrapText measureBody body 900 (c.setFill (.color accentColor))
    else c
  | none => c

/-- `drawScene` (page.tsx lines 175-207): bracketed by `save`/`restore`, sets
`globalAlpha` to the given opacity, paints the title in the primary color
(max width 920), and then the truthy body via `drawSceneBody`.
`measureTitle`/`measureBody` stand for `measureText` under the title and body
fonts. -/
def drawScene (measureTitle measureBody : Str → ℚ) (primaryColor accentColor : Str)
    (scene : Scene) (opacity : ℚ) (c : Ctx) : Ctx :=
  let c := c.save
  let c := c.setAlpha opacity
  let c := c.setFill (.color primaryColor)
  let c := wrapText measureTitle scene.title 920 c
  let c := drawSceneBody measureBody accentColor scene.body c
  c.restore

/-- The progress-bar track block of `renderFrame` (page.tsx lines 309-313):
`save; globalAlpha = 0.35; fillStyle = "#0f172a"; fillRect; restore`. -/
def drawTimelineTrack (c : Ctx) : Ctx :=
  ((((c.save).setAlpha (35/100)).setFill (.color "#0f172a".toList)).fillRect).restore

/-- The progress-bar fill block of `renderFrame` (page.tsx lines 315-324):
`save; globalAlpha = 0.85; fillStyle = accentColor; fillRect; restore`. -/
def drawTimelineFill (accentColor : Str) (c : Ctx) : Ctx :=
  ((((c.save).setAlpha (85/100)).setFill (.color accentColor)).fillRect).restore

/-- The caption string `Scene ${sceneIndex + 1} - ${scene.title}` (page.tsx
line 332). -/
def captionText (sceneIndex : Nat) (title : Str) : Str :=
  "Scene ".toList ++ (toString (sceneIndex + 1)).toList ++ " - ".toList ++ title

/-- The caption block of `renderFrame` (page.tsx lines 326-336):
`save; globalAlpha = 0.6; fillStyle = primaryColor; fillText(caption); restore`. -/
def drawCaption (primaryColor : Str) (sceneIndex : Nat) (title : Str) (c : Ctx) : Ctx :=
  ((((c.save).setAlpha (6/10)).setFill (.color primaryColor)).fillText
    (captionText sceneIndex title)).restore

/-- The painting performed by one `renderFrame` invocation (page.tsx lines
278-336): background, active scene (at the computed fade opacity), progress
track, progress fill, caption. -/
def renderFramePaint (measureTitle measureBody : Str → ℚ)
    (backgroundStart backgroundEnd accentColor primaryColor : Str)
    (scenes : List Scene) (framesPerScene totalFrames currentFrame : Nat)
    (c : Ctx) : Ctx :=
  let overallProgress := (currentFrame : ℚ) / (totalFrames : ℚ)
  let c := drawBackground backgroundStart backgroundEnd accentColor primaryColor
    overallProgress c
  let sceneIndex := sceneIndexOf scenes.length framesPerScene currentFrame
  let scene := scenes.getD sceneIndex { title := [], body := none }
  let opacity := opacityOf framesPerScene currentFrame
  let c := drawScene measureTitle measureBody primaryColor accentColor scene opacity c
  let c := drawTimelineTrack c
  let c := drawTimelineFill accentColor c
  drawCaption primaryColor sceneIndex scene.title c

@[simp] theorem Ctx.save_globalAlpha (c : Ctx) : c.save.globalAlpha = c.globalAlpha := rfl

@[simp] theorem Ctx.save_fillStyle (c : Ctx) : c.save.fillStyle = c.fillStyle := rfl

@[simp] theorem Ctx.save_stack (c : Ctx) :
    c.save.stack = (c.globalAlpha, c.fillStyle) :: c.stack := rfl

@[simp] theorem Ctx.save_ops (c : Ctx) : c.save.ops = c.ops := rfl

@[simp] theorem Ctx.setAlpha_globalAlpha (c : Ctx) (a : ℚ) : (c.setAlpha a).globalAlpha = a := rfl

@[simp] theorem Ctx.setAlpha_fillStyle (c : Ctx) (a : ℚ) :
    (c.setAlpha a).fillStyle = c.fillStyle := rfl

@[simp] theorem Ctx.setAlpha_stack (c : Ctx) (a : ℚ) : (c.setAlpha a).stack = c.stack := rfl

@[simp] theorem Ctx.setAlpha_ops (c : Ctx) (a : ℚ) : (c.setAlpha a).ops = c.ops := rfl

@[simp] theorem Ctx.setFill_globalAlpha (c : Ctx) (f : FillStyle) :
    (c.setFill f).globalAlpha = c.globalAlpha := rfl

@[simp] theorem Ctx.setFill_fillStyle (c : Ctx) (f : FillStyle) : (c.setFill f).fillStyle = f := rfl

@[simp] theorem Ctx.setFill_stack (c : Ctx) (f : FillStyle) : (c.setFill f).stack = c.stack := rfl

@[simp] theorem Ctx.setFill_ops (c : Ctx) (f : FillStyle) : (c.setFill f).ops = c.ops := rfl

@[simp] theorem Ctx.fillRect_globalAlpha (c : Ctx) : c.fillRect.globalAlpha = c.globalAlpha := rfl

@[simp] theorem Ctx.fillRect_fillStyle (c : Ctx) : c.fillRect.fillStyle = c.fillStyle := rfl

@[simp] theorem Ctx.fillRect_stack (c : Ctx) : c.fillRect.stack = c.stack := rfl

@[simp] theorem Ctx.fillCircle_globalAlpha (c : Ctx) :
    c.fillCircle.globalAlpha = c.globalAlpha := rfl

@[simp] theorem Ctx.fillCircle_fillStyle (c : Ctx) : c.fillCircle.fillStyle = c.fillStyle := rfl

@[simp] theorem Ctx.fillCircle_stack (c : Ctx) : c.fillCircle.stack = c.stack := rfl

@[simp] theorem Ctx.fillText_globalAlpha (c : Ctx) (t : Str) :
    (c.fillText t).globalAlpha = c.globalAlpha := rfl

@[simp] theorem Ctx.fillText_fillStyle (c : Ctx) (t : Str) :
    (c.fillText t).fillStyle = c.fillStyle := rfl

@[simp] theorem Ctx.fillText_stack (c : Ctx) (t : Str) : (c.fillText t).stack = c.stack := rfl

@[simp] theorem Ctx.fillText_ops (c : Ctx) (t : Str) :
    (c.fillText t).ops = c.ops ++ [.fillTextOp t c.globalAlpha c.fillStyle] := rfl

theorem Ctx.restore_eq_of_stack (c : Ctx) {a : ℚ} {f : FillStyle}
    {rest : List (ℚ × FillStyle)} (h : c.stack = (a, f) :: rest) :
    c.restore = { globalAlpha := a, fillStyle := f, stack := rest, ops := c.ops } := by
  cases c
  cases h
  rfl

theorem foldl_fillText_globalAlpha (ls : List Str) :
    ∀ c : Ctx, (ls.foldl Ctx.fillText c).globalAlpha = c.globalAlpha := by
  induction ls with
  | nil => intro c; rfl
  | cons x t ih => intro c; rw [List.foldl_cons, ih]; rfl

theorem foldl_fillText_fillStyle (ls : List Str) :
    ∀ c : Ctx, (ls.foldl Ctx.fillText c).fillStyle = c.fillStyle := by
  induction ls with
  | nil => intro c; rfl
  | cons x t ih => intro c; rw [List.foldl_cons, ih]; rfl

theorem foldl_fillText_stack (ls : List Str) :
    ∀ c : Ctx, (ls.foldl Ctx.fillText c).stack = c.stack := by
  induction ls with
  | nil => intro c; rfl
  | cons x t ih => intro c; rw [List.foldl_cons, ih]; rfl

@[simp] theorem wrapText_globalAlpha (m : Str → ℚ) (t : Str) (mw : ℚ) (c : Ctx) :
    (wrapText m t mw c).globalAlpha = c.globalAlpha :=
  foldl_fillText_globalAlpha _ _

@[simp] theorem wrapText_fillStyle (m : Str → ℚ) (t : Str) (mw : ℚ) (c : Ctx) :
    (wrapText m t mw c).fillStyle = c.fillStyle :=
  foldl_fillText_fillStyle _ _

@[simp] theorem wrapText_stack (m : Str → ℚ) (t : Str) (mw : ℚ) (c : Ctx) :
    (wrapText m t mw c).stack = c.stack :=
  foldl_fillText_stack _ _

@[simp] theorem drawSceneBody_globalAlpha (mb : Str → ℚ) (ac : Str) (body : Option Str)
    (c : Ctx) : (drawSceneBody mb ac body c).globalAlpha = c.globalAlpha := by
  cases body with
  | none => rfl
  | some b =>
    simp only [drawSceneBody]
    split <;> simp

@[simp] theorem drawSceneBody_stack (mb : Str → ℚ) (ac : Str) (body : Option Str)
    (c : Ctx) : (drawSceneBody mb ac body c).stack = c.stack := by
  cases body with
  | none => rfl
  | some b =>
    simp only [drawSceneBody]
    split <;> simp

theorem drawScene_inner_stack (mt mb : Str → ℚ) (pc ac : Str) (scene : Scene)
    (op : ℚ) (c : Ctx) :
    (drawSceneBody mb ac scene.body
        (wrapText mt scene.title 920 (((c.save).setAlpha op).setFill (.color pc)))).stack
      = (c.globalAlpha, c.fillStyle) :: c.stack := by
  simp

@[simp] theorem drawScene_globalAlpha (mt mb : Str → ℚ) (pc ac : Str) (scene : Scene)
    (op : ℚ) (c : Ctx) : (drawScene mt mb pc ac scene op c).globalAlpha = c.globalAlpha := by
  simp only [drawScene]
  rw [Ctx.restore_eq_of_stack _ (drawScene_inner_stack mt mb pc ac scene op c)]

@[simp] theorem drawScene_fillStyle (mt mb : Str → ℚ) (pc ac : Str) (scene : Scene)
    (op : ℚ) (c : Ctx) : (drawScene mt mb pc ac scene op c).fillStyle = c.fillStyle := by
  simp only [drawScene]
  rw [Ctx.restore_eq_of_stack _ (drawScene_inner_stack mt mb pc ac scene op c)]

@[simp] theorem drawScene_stack (mt mb : Str → ℚ) (pc ac : Str) (scene : Scene)
    (op : ℚ) (c : Ctx) : (drawScene mt mb pc ac scene op c).stack = c.stack := by
  simp only [drawScene]
  rw [Ctx.restore_eq_of_stack _ (drawScene_inner_stack mt mb pc ac scene op c)]

@[simp] theorem drawTimelineTrack_globalAlpha (c : Ctx) :
    (drawTimelineTrack c).globalAlpha = c.globalAlpha := rfl

@[simp] theorem drawTimelineTrack_fillStyle (c : Ctx) :
    (drawTimelineTrack c).fillStyle = c.fillStyle := rfl

@[simp] theorem drawTimelineTrack_stack (c : Ctx) :
    (drawTimelineTrack c).stack = c.stack := rfl

@[simp] theorem drawTimelineFill_globalAlpha (ac : Str) (c : Ctx) :
    (drawTimelineFill ac c).globalAlpha = c.globalAlpha := rfl

@[simp] theorem drawTimelineFill_fillStyle (ac : Str) (c : Ctx) :
    (drawTimelineFill ac c).fillStyle = c.fillStyle := rfl

@[simp] theorem drawTimelineFill_stack (ac : Str) (c : Ctx) :
    (drawTimelineFill ac c).stack = c.stack := rfl

@[simp] theorem drawCaption_globalAlpha (pc : Str) (i : Nat) (t : Str) (c : Ctx) :
    (drawCaption pc i t c).globalAlpha = c.globalAlpha := rfl

@[simp] theorem drawCaption_fillStyle (pc : Str) (i : Nat) (t : Str) (c : Ctx) :
    (drawCaption pc i t c).fillStyle = c.fillStyle := rfl

@[simp] theorem drawCaption_stack (pc : Str) (i : Nat) (t : Str) (c : Ctx) :
    (drawCaption pc i t c).stack = c.stack := rfl

@[simp] theorem drawBackground_globalAlpha (bs be ac pc : Str) (p : ℚ) (c : Ctx) :
    (drawBackground bs be ac pc p c).globalAlpha = c.globalAlpha := rfl

@[simp] theorem drawBackground_stack (bs be ac pc : Str) (p : ℚ) (c : Ctx) :
    (drawBackground bs be ac pc p c).stack = c.stack := rfl

theorem drawBackground_fillStyle (bs be ac pc : Str) (p : ℚ) (c : Ctx) :
    (drawBackground bs be ac pc p c).fillStyle =
      .radialGradient [(0, ac ++ "30".toList), (1, ac ++ "00".toList)] := rfl

theorem renderFramePaint_globalAlpha (mt mb : Str → ℚ) (bs be ac pc : Str)
    (scenes : List Scene) (fps total cf : Nat) (c : Ctx) :
    (renderFramePaint mt mb bs be ac pc scenes fps total cf c).globalAlpha = c.globalAlpha := by
  simp [renderFramePaint]

theorem wrapLines_nil (measure : Str → ℚ) (maxWidth : ℚ) :
    wrapLines measure maxWidth [] = [] := by
  simp [wrapLines, wrapStep]

theorem wrapText_nil (measure : Str → ℚ) (maxWidth : ℚ) (c : Ctx) :
    wrapText measure [] maxWidth c = c := by
  simp [wrapText, wrapLines_nil]

/-- C9: wrapping the empty string produces zero lines and performs no
text-painting call, so a scene whose title is empty (and whose body is
absent) appends no paint operation at all — rather than painting one blank
line. -/
theorem wrap_empty_paints_nothing :
    (∀ (measure : Str → ℚ) (maxWidth : ℚ), wrapLines measure maxWidth [] = []) ∧
      (∀ (measure : Str → ℚ) (maxWidth : ℚ) (c : Ctx), wrapText measure [] maxWidth c = c) ∧
      (∀ (mt mb : Str → ℚ) (pc ac : Str) (op : ℚ) (c : Ctx),
        (drawScene mt mb pc ac { title := [], body := none } op c).ops = c.ops) := by
  refine ⟨wrapLines_nil, wrapText_nil, ?_⟩
  intro mt mb pc ac op c
  simp only [drawScene]
  rw [Ctx.restore_eq_of_stack _
    (drawScene_inner_stack mt mb pc ac { title := [], body := none } op c)]
  simp [drawSceneBody, wrapText_nil]

/-- C10: for every `framesPerScene ≥ 1` and every frame counter value, the
opacity computed by the timeline step lies in the closed interval `[0, 1]`. -/
theorem opacity_mem_unit_interval (framesPerScene currentFrame : Nat)
    (hpos : 1 ≤ framesPerScene) :
    0 ≤ opacityOf framesPerScene currentFrame ∧
      opacityOf framesPerScene currentFrame ≤ 1 := by
  have h6 : 6 ≤ fadeSpanOf framesPerScene := le_max_left _ _
  have hfsQ : (0 : ℚ) < (fadeSpanOf framesPerScene : ℚ) := by
    exact_mod_cast lt_of_lt_of_le (by norm_num : (0 : Nat) < 6) h6
  simp only [opacityOf]
  split_ifs with h1 h2
  · constructor
    · positivity
    · rw [div_le_one hfsQ]
      exact_mod_cast h1.le
  · refine ⟨le_max_left 0 _, max_le (by norm_num) ?_⟩
    rw [div_le_one hfsQ]
    linarith
  · norm_num

/-- Witness for `opacity_mem_unit_interval` at `framesPerScene = 30`,
`currentFrame = 7`. -/
theorem opacity_mem_unit_interval_witness :
    0 ≤ opacityOf 30 7 ∧ opacityOf 30 7 ≤ 1 :=
  opacity_mem_unit_interval 30 7 (by decide)

theorem driverStep_iterate (totalFrames n : Nat) :
    (driverStep totalFrames)^[n] { currentFrame := 0, stopped := false } =
      { currentFrame := min n (totalFrames + 1), stopped := decide (totalFrames < n) } := by
  induction n with
  | zero => simp
  | succ n ih =>
    rw [Function.iterate_succ_apply', ih]
    simp only [driverStep]
    split
    · next hstop =>
      have ht : totalFrames < n := of_decide_eq_true hstop
      simp only [DriverState.mk.injEq, decide_eq_decide]
      constructor
      · omega
      · omega
    · next hstop =>
      have ht : ¬ totalFrames < n := by simpa using hstop
      split
      · next hle =>
        simp only [DriverState.mk.injEq]
        refine ⟨by omega, ?_⟩
        have hnot : ¬ totalFrames < n + 1 := by omega
        simp [hnot]
      · next hle =>
        simp only [DriverState.mk.injEq]
        refine ⟨by omega, ?_⟩
        have hyes : totalFrames < n + 1 := by omega
        simp [hyes]

/-- C6 counterexample: with one scene of one frame (`totalFrames = 1`), the
state in which the driver stops (`stopped = true`, reached after two steps)
has `currentFrame = 2 > totalFrames`, so the invariant
`currentFrame ≤ totalFrames` does not hold at the Completed transition. -/
theorem driver_completion_exceeds_totalFrames :
    ((driverStep 1)^[2] { currentFrame := 0, stopped := false }).stopped = true ∧
      1 < ((driverStep 1)^[2] { currentFrame := 0, stopped := false }).currentFrame := by
  decide

/-- C6 (amended): starting from 0 the counter advances by exactly 1 per step
up to `totalFrames + 1`; every state in which a frame is still painted
(`stopped = false`) satisfies `currentFrame ≤ totalFrames`, and the state
that triggers the stop signal has `currentFrame = totalFrames + 1`. -/
theorem driver_frame_progression (totalFrames n : Nat) :
    ((driverStep totalFrames)^[n] { currentFrame := 0, stopped := false }).currentFrame
        = min n (totalFrames + 1) ∧
      (((driverStep totalFrames)^[n] { currentFrame := 0, stopped := false }).stopped = false →
        ((driverStep totalFrames)^[n] { currentFrame := 0, stopped := false }).currentFrame
          ≤ totalFrames) ∧
      (((driverStep totalFrames)^[n] { currentFrame := 0, stopped := false }).stopped = true →
        ((driverStep totalFrames)^[n] { currentFrame := 0, stopped := false }).currentFrame
          = totalFrames + 1) := by
  rw [driverStep_iterate]
  refine ⟨rfl, ?_, ?_⟩
  · intro h
    have hn : ¬ totalFrames < n := by simpa using h
    show min n (totalFrames + 1) ≤ totalFrames
    omega
  · intro h
    have hn : totalFrames < n := by simpa using h
    show min n (totalFrames + 1) = totalFrames + 1
    omega

/-- Witness for `driver_frame_progression` with `totalFrames = 2`, `n = 3`:
the stopped state has `currentFrame = 3 = totalFrames + 1`. -/
theorem driver_frame_progression_witness :
    ((driverStep 2)^[3] { currentFrame := 0, stopped := false }).currentFrame = 2 + 1 :=
  (driver_frame_progression 2 3).2.2 (by decide)

/-- C7: when recording is supported and the canvas is available but the
parsed script yields zero scenes, the generate request fails with the
no-scenes message; in particular it never reaches the session-start branch
(`GenOutcome.started`), so no recorder is constructed, no chunk buffer is
created, and no frame is painted. -/
theorem generate_noScenes_failure (env : GenEnv) (script : Str) (sceneDuration : ℚ)
    (hmedia : env.mediaRecorderSupported = true) (hcanvas : env.canvasAvailable = true)
    (hscenes : parseScript script = []) :
    handleGenerate env script sceneDuration = .failed ERR_NO_SCENES := by
  simp [handleGenerate, hmedia, hcanvas, hscenes]

/-- Witness for `generate_noScenes_failure`: the empty script in a fully
capable environment. -/
theorem generate_noScenes_failure_witness :
    handleGenerate
        { mediaRecorderSupported := true, canvasAvailable := true,
          contextAvailable := true, isTypeSupported := fun _ => true } [] 4
      = .failed ERR_NO_SCENES :=
  generate_noScenes_failure _ _ _ rfl rfl (by decide)

/-- C1 counterexample: in the two-scene, 4-second scenario
(`framesPerScene = 120`, `fadeSpan = 20`), frame 119 lies inside the
fade-out window (`119 > 120 - 20`), so its opacity is `1/20 = 0.05` —
not approximately 1 as the claim states. -/
theorem scenario_frame119_fadeout :
    opacityOf 120 119 = 1 / 20 ∧ ¬ (1 / 2 : ℚ) ≤ opacityOf 120 119 := by
  constructor <;> norm_num [opacityOf, fadeSpanOf]

/-- C1 (amended): script `"A|one\nB|two"` with 4-second scenes yields 2
scenes, `framesPerScene = 120`, `totalFrames = 240`; at frame 0 the scene
index is 0 and the opacity is 0; at frame 119 the scene index is 0 but the
opacity is `1/20` (frame 119 is within the fade-out window); the opacity is
1 in the hold window, e.g. at frame 60; at frame 120 the scene index is 1. -/
theorem scenario_two_scenes_timeline :
    (parseScript "A|one\nB|two".toList).length = 2 ∧
      framesPerSceneOf 4 = 120 ∧
      framesPerSceneOf 4 * (parseScript "A|one\nB|two".toList).length = 240 ∧
      sceneIndexOf 2 120 0 = 0 ∧ opacityOf 120 0 = 0 ∧
      sceneIndexOf 2 120 119 = 0 ∧ opacityOf 120 119 = 1 / 20 ∧
      opacityOf 120 60 = 1 ∧ sceneIndexOf 2 120 120 = 1 := by
  have hf : framesPerSceneOf 4 = 120 := by
    norm_num [framesPerSceneOf, FPS, round_eq]
    decide
  refine ⟨by decide, hf, ?_, by decide, ?_, by decide, ?_, ?_, by decide⟩
  · rw [hf]
    decide
  · norm_num [opacityOf, fadeSpanOf]
  · norm_num [opacityOf, fadeSpanOf]
  · norm_num [opacityOf, fadeSpanOf]

/-- C2 counterexample: for `framesPerScene = 10` (a legal value ≥ 1) the
fade span is 6, and at `frameWithinScene = fadeSpan = 6` the fade-in and
fade-out windows overlap: the computed opacity is `2/3`, not 1. -/
theorem opacity_fadeSpan_overlap_counterexample :
    (1 : Nat) ≤ 10 ∧ fadeSpanOf 10 = 6 ∧ 6 % 10 = 6 ∧ opacityOf 10 6 ≠ 1 := by
  refine ⟨by norm_num, by decide, by decide, ?_⟩
  norm_num [opacityOf, fadeSpanOf]

/-- C2 (amended): provided the fade windows do not overlap
(`2 * fadeSpan ≤ framesPerScene`), the opacity is 0 at
`frameWithinScene = 0`, is 1 at `frameWithinScene = fadeSpan`, and over the
last frames of the scene (`frameWithinScene > framesPerScene - fadeSpan`)
equals `(framesPerScene - frameWithinScene) / fadeSpan` clamped below at 0. -/
theorem opacity_fade_profile (framesPerScene : Nat)
    (hspan : 2 * fadeSpanOf framesPerScene ≤ framesPerScene) :
    (∀ currentFrame, currentFrame % framesPerScene = 0 →
        opacityOf framesPerScene currentFrame = 0) ∧
      (∀ currentFrame, currentFrame % framesPerScene = fadeSpanOf framesPerScene →
        opacityOf framesPerScene currentFrame = 1) ∧
      (∀ currentFrame,
        framesPerScene - fadeSpanOf framesPerScene < currentFrame % framesPerScene →
        opacityOf framesPerScene currentFrame =
          max 0 (((framesPerScene : ℚ) - ((currentFrame % framesPerScene : Nat) : ℚ))
            / ((fadeSpanOf framesPerScene : Nat) : ℚ))) := by
  have h6 : 6 ≤ fadeSpanOf framesPerScene := le_max_left _ _
  refine ⟨?_, ?_, ?_⟩
  · intro cf h0
    simp only [opacityOf, h0]
    rw [if_pos (lt_of_lt_of_le (by norm_num) h6)]
    simp
  · intro cf hfs
    have hle : (fadeSpanOf framesPerScene : ℚ) ≤
        (framesPerScene : ℚ) - (fadeSpanOf framesPerScene : ℚ) := by
      have : ((2 * fadeSpanOf framesPerScene : Nat) : ℚ) ≤ (framesPerScene : ℚ) := by
        exact_mod_cast hspan
      push_cast at this
      linarith
    simp only [opacityOf, hfs]
    rw [if_neg (lt_irrefl _), if_neg (not_lt.mpr hle)]
  · intro cf hlt
    have hfble : fadeSpanOf framesPerScene ≤ framesPerScene := by omega
    have h1 : ¬ (cf % framesPerScene < fadeSpanOf framesPerScene) := by omega
    have h2 : (framesPerScene : ℚ) - (fadeSpanOf framesPerScene : ℚ) <
        ((cf % framesPerScene : Nat) : ℚ) := by
      have hq : ((framesPerScene - fadeSpanOf framesPerScene : Nat) : ℚ) <
          ((cf % framesPerScene : Nat) : ℚ) := by
        exact_mod_cast hlt
      rwa [Nat.cast_sub hfble] at hq
    simp only [opacityOf]
    rw [if_neg h1, if_pos h2]

/-- Witness for `opacity_fade_profile`: `framesPerScene = 120` satisfies the
no-overlap hypothesis and the opacity at `frameWithinScene = fadeSpan = 20`
is 1. -/
theorem opacity_fade_profile_witness : opacityOf 120 20 = 1 :=
  (opacity_fade_profile 120 (by decide)).2.1 20 (by decide)

/-- C8 counterexample: `drawBackground` performs no save/restore, so after
painting the background of a frame the context's fill style is no longer the
value it had before the element was drawn (it is left as the last blob's
radial gradient). -/
theorem drawBackground_fillStyle_not_restored :
    (drawBackground "#f1f5f9".toList "#dbeafe".toList "#38bdf8".toList "#0f172a".toList 0
        { globalAlpha := 1, fillStyle := .color "#000000".toList, stack := [],
          ops := [] }).fillStyle
      ≠ FillStyle.color "#000000".toList := by
  decide

/-- C8 (amended): the scene text, progress-bar track, progress-bar fill and
caption each save and restore the paint state, so after each of them both
`globalAlpha` and `fillStyle` equal their prior values; the background never
changes `globalAlpha` but leaves its last blob's radial gradient (built from
the accent color) as the fill style; across a whole frame `globalAlpha` is
preserved. -/
theorem paint_state_discipline :
    (∀ (mt mb : Str → ℚ) (pc ac : Str) (scene : Scene) (op : ℚ) (c : Ctx),
        (drawScene mt mb pc ac scene op c).globalAlpha = c.globalAlpha ∧
          (drawScene mt mb pc ac scene op c).fillStyle = c.fillStyle) ∧
      (∀ c : Ctx, (drawTimelineTrack c).globalAlpha = c.globalAlpha ∧
          (drawTimelineTrack c).fillStyle = c.fillStyle) ∧
      (∀ (ac : Str) (c : Ctx), (drawTimelineFill ac c).globalAlpha = c.globalAlpha ∧
          (drawTimelineFill ac c).fillStyle = c.fillStyle) ∧
      (∀ (pc : Str) (i : Nat) (t : Str) (c : Ctx),
          (drawCaption pc i t c).globalAlpha = c.globalAlpha ∧
          (drawCaption pc i t c).fillStyle = c.fillStyle) ∧
      (∀ (bs be ac pc : Str) (p : ℚ) (c : Ctx),
          (drawBackground bs be ac pc p c).globalAlpha = c.globalAlpha ∧
          (drawBackground bs be ac pc p c).fillStyle =
            .radialGradient [(0, ac ++ "30".toList), (1, ac ++ "00".toList)]) ∧
      (∀ (mt mb : Str → ℚ) (bs be ac pc : Str) (scenes : List Scene)
          (fps total cf : Nat) (c : Ctx),
          (renderFramePaint mt mb bs be ac pc scenes fps total cf c).globalAlpha
            = c.globalAlpha) := by
  refine ⟨?_, ?_, ?_, ?_, ?_, ?_⟩
  · intro mt mb pc ac scene op c
    exact ⟨drawScene_globalAlpha mt mb pc ac scene op c,
      drawScene_fillStyle mt mb pc ac scene op c⟩
  · intro c
    exact ⟨rfl, rfl⟩
  · intro ac c
    exact ⟨rfl, rfl⟩
  · intro pc i t c
    exact ⟨rfl, rfl⟩
  · intro bs be ac pc p c
    exact ⟨rfl, rfl⟩
  · intro mt mb bs be ac pc scenes fps total cf c
    exact renderFramePaint_globalAlpha mt mb bs be ac pc scenes fps total cf c

theorem intercalate_singleton {α : Type} (sep : α) (x : List α) :
    [sep].intercalate [x] = x := by
  simp [List.intercalate]

theorem intercalate_cons_of_ne_nil {α : Type} (sep : α) (x : List α) (t : List (List α))
    (h : t ≠ []) : [sep].intercalate (x :: t) = x ++ sep :: [sep].intercalate t := by
  cases t with
  | nil => exact absurd rfl h
  | cons y u => simp [List.intercalate, List.intersperse_cons_cons]

theorem intercalate_append_singleton {α : Type} (sep : α) :
    ∀ (l : List (List α)) (a : List α), l ≠ [] →
      [sep].intercalate (l ++ [a]) = [sep].intercalate l ++ sep :: a := by
  intro l
  induction l with
  | nil => intro a h; exact absurd rfl h
  | cons x t ih =>
    intro a _
    cases t with
    | nil =>
      rw [List.cons_append, List.nil_append,
        intercalate_cons_of_ne_nil sep x [a] (by simp), intercalate_singleton,
        intercalate_singleton]
    | cons y u =>
      rw [List.cons_append, intercalate_cons_of_ne_nil sep x ((y :: u) ++ [a]) (by simp),
        intercalate_cons_of_ne_nil sep x (y :: u) (by simp), ih a (by simp)]
      simp

theorem intercalate_merge_sep {α : Type} (sep : α) :
    ∀ (l : List (List α)) (a b : List α) (r : List (List α)),
      [sep].intercalate (l ++ (a ++ sep :: b) :: r) = [sep].intercalate (l ++ a :: b :: r) := by
  intro l
  induction l with
  | nil =>
    intro a b r
    cases r with
    | nil =>
      rw [List.nil_append, List.nil_append, intercalate_singleton,
        intercalate_cons_of_ne_nil sep a [b] (by simp), intercalate_singleton]
    | cons x u =>
      rw [List.nil_append, List.nil_append,
        intercalate_cons_of_ne_nil sep _ (x :: u) (by simp),
        intercalate_cons_of_ne_nil sep a (b :: x :: u) (by simp),
        intercalate_cons_of_ne_nil sep b (x :: u) (by simp)]
      simp
  | cons c t ih =>
    intro a b r
    rw [List.cons_append, List.cons_append,
      intercalate_cons_of_ne_nil sep c (t ++ (a ++ sep :: b) :: r) (by simp),
      intercalate_cons_of_ne_nil sep c (t ++ a :: b :: r) (by simp), ih a b r]

theorem wrap_fold_join (measure : Str → ℚ) (maxWidth : ℚ) :
    ∀ (ws : List Str) (lines : List Str) (cur : Str), (∀ w ∈ ws, w ≠ []) → cur ≠ [] →
      (ws.foldl (wrapStep measure maxWidth) (lines, cur)).2 ≠ [] ∧
        [' '].intercalate ((ws.foldl (wrapStep measure maxWidth) (lines, cur)).1
            ++ [(ws.foldl (wrapStep measure maxWidth) (lines, cur)).2])
          = [' '].intercalate (lines ++ cur :: ws) := by
  intro ws
  induction ws with
  | nil =>
    intro lines cur _ hcur
    exact ⟨hcur, rfl⟩
  | cons w ws ih =>
    intro lines cur hws hcur
    rw [List.foldl_cons]
    have hw : w ≠ [] := hws w (List.mem_cons_self w ws)
    have hws' : ∀ v ∈ ws, v ≠ [] := fun v hv => hws v (List.mem_cons_of_mem _ hv)
    have hlen : ¬ cur.length = 0 := by simpa [List.length_eq_zero] using hcur
    by_cases hcond : measure (cur ++ ' ' :: w) > maxWidth
    · have hstep : wrapStep measure maxWidth (lines, cur) w = (lines ++ [cur], w) := by
        simp [wrapStep, hlen, hcond, Nat.pos_of_ne_zero hlen]
      rw [hstep]
      obtain ⟨h1, h2⟩ := ih (lines ++ [cur]) w hws' hw
      refine ⟨h1, ?_⟩
      rw [h2, List.append_assoc]
      simp
    · have hstep : wrapStep measure maxWidth (lines, cur) w = (lines, cur ++ ' ' :: w) := by
        simp [wrapStep, hlen, hcond]
      rw [hstep]
      obtain ⟨h1, h2⟩ := ih lines (cur ++ ' ' :: w) hws' (by simp)
      refine ⟨h1, ?_⟩
      rw [h2, intercalate_merge_sep]

/-- C3 counterexample: for the input text consisting of a single space, the
wrap yields no lines at all (the lone empty word is dropped), so joining the
output with single spaces gives the empty string, not the original text —
for any measurement function and any max width. -/
theorem wrap_join_space_counterexample :
    [' '].intercalate (wrapLines (fun _ => 0) 100 [' ']) ≠ [' '] := by
  decide

/-- C3 (amended): provided every space-separated word of the text is
non-empty (no leading, trailing or doubled spaces), joining the wrapped
lines with single spaces reconstructs the text exactly; moreover a text
that is one single word (no space in it) is never split, whatever its
measured width — it comes back as one (possibly overflowing) line. -/
theorem wrap_reconstruction (measure : Str → ℚ) (maxWidth : ℚ) :
    (∀ text : Str, (∀ w ∈ text.splitOn ' ', w ≠ []) →
        [' '].intercalate (wrapLines measure maxWidth text) = text) ∧
      (∀ word : Str, ' ' ∉ word → word ≠ [] →
        wrapLines measure maxWidth word = [word]) := by
  constructor
  · intro text hall
    obtain ⟨w0, ws, hsplit⟩ : ∃ w0 ws, text.splitOn ' ' = w0 :: ws := by
      cases h : text.splitOn ' ' with
      | nil => exact absurd h (by simpa [List.splitOn] using List.splitOnP_ne_nil (· == ' ') text)
      | cons a b => exact ⟨a, b, rfl⟩
    have hw0 : w0 ≠ [] := hall w0 (by rw [hsplit]; exact List.mem_cons_self _ _)
    have hws : ∀ v ∈ ws, v ≠ [] := fun v hv =>
      hall v (by rw [hsplit]; exact List.mem_cons_of_mem _ hv)
    simp only [wrapLines]
    rw [hsplit, List.foldl_cons]
    have hstep : wrapStep measure maxWidth ([], []) w0 = ([], w0) := by
      simp [wrapStep]
    rw [hstep]
    obtain ⟨h1, h2⟩ := wrap_fold_join measure maxWidth ws [] w0 hws hw0
    rw [if_pos (List.length_pos.mpr h1), h2, List.nil_append, ← hsplit,
      List.intercalate_splitOn]
  · intro word hsp hne
    have hsplit : word.splitOn ' ' = [word] := by
      simp only [List.splitOn]
      refine List.splitOnP_eq_single _ _ ?_
      intro x hx
      simp only [beq_iff_eq]
      intro h
      exact hsp (h ▸ hx)
    simp only [wrapLines]
    rw [hsplit, List.foldl_cons]
    have hstep : wrapStep measure maxWidth ([], []) word = ([], word) := by
      simp [wrapStep]
    rw [hstep, List.foldl_nil]
    simp [List.length_pos.mpr hne]

/-- Witness for `wrap_reconstruction`: the text `"ab cd"` wrapped at width 3
under the character-count measure joins back to `"ab cd"`. -/
theorem wrap_reconstruction_witness :
    [' '].intercalate (wrapLines (fun w => (w.length : ℚ)) 3 "ab cd".toList)
      = "ab cd".toList :=
  (wrap_reconstruction (fun w => (w.length : ℚ)) 3).1 "ab cd".toList (by decide)

theorem splitOnP_sep_not_mem {α : Type} (p : α → Bool) :
    ∀ (xs : List α), ∀ s ∈ xs.splitOnP p, ∀ x ∈ s, p x = false := by
  intro xs
  induction xs with
  | nil =>
    intro s hs x hx
    simp only [List.splitOnP_nil, List.mem_singleton] at hs
    subst hs
    simp at hx
  | cons c cs ih =>
    intro s hs x hx
    rw [List.splitOnP_cons] at hs
    cases hpc : p c with
    | true =>
      rw [if_pos hpc] at hs
      rcases List.mem_cons.mp hs with h | h
      · subst h; simp at hx
      · exact ih s h x hx
    | false =>
      rw [if_neg (by simp [hpc])] at hs
      obtain ⟨hd, tl, he⟩ : ∃ hd tl, cs.splitOnP p = hd :: tl := by
        cases h : cs.splitOnP p with
        | nil => exact absurd h (List.splitOnP_ne_nil p cs)
        | cons a b => exact ⟨a, b, rfl⟩
      rw [he, List.modifyHead_cons] at hs
      rcases List.mem_cons.mp hs with h | h
      · subst h
        rcases List.mem_cons.mp hx with h | h
        · subst h; exact hpc
        · exact ih hd (he ▸ List.mem_cons_self hd tl) x h
      · exact ih s (he ▸ List.mem_cons_of_mem hd h) x hx

theorem splitOn_space_no_space (text : Str) : ∀ w ∈ text.splitOn ' ', ' ' ∉ w := by
  intro w hw hsp
  have hfalse := splitOnP_sep_not_mem (· == ' ') text w
    (by simpa [List.splitOn] using hw) ' ' hsp
  simp at hfalse

theorem goodLine_single (measure : Str → ℚ) (maxWidth : ℚ) (w : Str) (hw : ' ' ∉ w) :
    GoodLine measure maxWidth w := by
  refine ⟨[w], by simp, ?_, ?_, ?_⟩
  · intro v hv
    simp only [List.mem_singleton] at hv
    subst hv
    exact hw
  · exact (intercalate_singleton ' ' w).symm
  · simp [wrapStep]

theorem goodLine_append (measure : Str → ℚ) (maxWidth : ℚ) (cur w : Str)
    (h : GoodLine measure maxWidth cur) (hcur : cur ≠ []) (hw : ' ' ∉ w)
    (hfit : ¬ measure (cur ++ ' ' :: w) > maxWidth) :
    GoodLine measure maxWidth (cur ++ ' ' :: w) := by
  obtain ⟨ws, hne, hsp, hL, hfold⟩ := h
  refine ⟨ws ++ [w], by simp, ?_, ?_, ?_⟩
  · intro v hv
    rcases List.mem_append.mp hv with h | h
    · exact hsp v h
    · simp only [List.mem_singleton] at h
      subst h
      exact hw
  · rw [intercalate_append_singleton ' ' ws w hne, ← hL]
  · rw [List.foldl_append, hfold, List.foldl_cons, List.foldl_nil]
    have hlen : ¬ cur.length = 0 := by simpa [List.length_eq_zero] using hcur
    simp [wrapStep, hlen, hfit]

theorem goodLine_rewrap (measure : Str → ℚ) (maxWidth : ℚ) (L : Str)
    (h : GoodLine measure maxWidth L) (hne : L ≠ []) :
    wrapLines measure maxWidth L = [L] := by
  obtain ⟨ws, hwne, hsp, hL, hfold⟩ := h
  have hsplit : L.splitOn ' ' = ws := by
    rw [hL]
    exact List.splitOn_intercalate ws ' ' hsp hwne
  simp only [wrapLines]
  rw [hsplit, hfold]
  simp [List.length_pos.mpr hne]

theorem wrap_fold_good (measure : Str → ℚ) (maxWidth : ℚ) :
    ∀ (ws : List Str) (lines : List Str) (cur : Str),
      (∀ w ∈ ws, ' ' ∉ w) →
      (∀ L ∈ lines, L ≠ [] ∧ GoodLine measure maxWidth L) →
      (cur = [] ∨ GoodLine measure maxWidth cur) →
      (∀ L ∈ (ws.foldl (wrapStep measure maxWidth) (lines, cur)).1,
          L ≠ [] ∧ GoodLine measure maxWidth L) ∧
        ((ws.foldl (wrapStep measure maxWidth) (lines, cur)).2 = [] ∨
          GoodLine measure maxWidth (ws.foldl (wrapStep measure maxWidth) (lines, cur)).2) := by
  intro ws
  induction ws with
  | nil =>
    intro lines cur _ hlines hcur
    exact ⟨hlines, hcur⟩
  | cons w ws ih =>
    intro lines cur hsp hlines hcur
    have hw : ' ' ∉ w := hsp w (List.mem_cons_self _ _)
    have hsp' : ∀ v ∈ ws, ' ' ∉ v := fun v hv => hsp v (List.mem_cons_of_mem _ hv)
    rw [List.foldl_cons]
    by_cases hcne : cur = []
    · subst hcne
      have hstep : wrapStep measure maxWidth (lines, []) w = (lines, w) := by
        simp [wrapStep]
      rw [hstep]
      exact ih lines w hsp' hlines (Or.inr (goodLine_single measure maxWidth w hw))
    · have hgood : GoodLine measure maxWidth cur := hcur.resolve_left hcne
      have hlen : ¬ cur.length = 0 := by simpa [List.length_eq_zero] using hcne
      by_cases hcond : measure (cur ++ ' ' :: w) > maxWidth
      · have hstep : wrapStep measure maxWidth (lines, cur) w = (lines ++ [cur], w) := by
          simp [wrapStep, hlen, hcond, Nat.pos_of_ne_zero hlen]
        rw [hstep]
        refine ih (lines ++ [cur]) w hsp' ?_ (Or.inr (goodLine_single measure maxWidth w hw))
        intro L hL
        rcases List.mem_append.mp hL with h | h
        · exact hlines L h
        · simp only [List.mem_singleton] at h
          subst h
          exact ⟨hcne, hgood⟩
      · have hstep : wrapStep measure maxWidth (lines, cur) w = (lines, cur ++ ' ' :: w) := by
          simp [wrapStep, hlen, hcond]
        rw [hstep]
        exact ih lines (cur ++ ' ' :: w) hsp' hlines
          (Or.inr (goodLine_append measure maxWidth cur w hgood hcne hw hcond))

theorem sum_map_length_one (f : Str → Nat) :
    ∀ (l : List Str), (∀ L ∈ l, f L = 1) → (l.map f).sum = l.length := by
  intro l
  induction l with
  | nil => intro _; rfl
  | cons x t ih =>
    intro h
    simp only [List.map_cons, List.sum_cons, List.length_cons]
    rw [h x (List.mem_cons_self _ _), ih (fun L hL => h L (List.mem_cons_of_mem _ hL))]
    omega

/-- C4: every line produced by the greedy wrap re-wraps (with the same
measurement function and max width) to exactly that one line, so re-wrapping
each output line individually leaves the total line count unchanged. -/
theorem wrapLines_idempotent (measure : Str → ℚ) (maxWidth : ℚ) (text : Str) :
    (∀ L ∈ wrapLines measure maxWidth text, wrapLines measure maxWidth L = [L]) ∧
      ((wrapLines measure maxWidth text).map
          (fun L => (wrapLines measure maxWidth L).length)).sum
        = (wrapLines measure maxWidth text).length := by
  have hmain : ∀ L ∈ wrapLines measure maxWidth text, wrapLines measure maxWidth L = [L] := by
    intro L hL
    have hfold := wrap_fold_good measure maxWidth (text.splitOn ' ') [] []
      (splitOn_space_no_space text) (by simp) (Or.inl rfl)
    simp only [wrapLines] at hL
    by_cases hsnd :
        ((text.splitOn ' ').foldl (wrapStep measure maxWidth) ([], [])).2.length > 0
    · rw [if_pos hsnd] at hL
      rcases List.mem_append.mp hL with h | h
      · obtain ⟨hne, hg⟩ := hfold.1 L h
        exact goodLine_rewrap measure maxWidth L hg hne
      · simp only [List.mem_singleton] at h
        subst h
        have hne : ((text.splitOn ' ').foldl (wrapStep measure maxWidth) ([], [])).2 ≠ [] :=
          List.length_pos.mp hsnd
        rcases hfold.2 with h0 | hg
        · exact absurd h0 hne
        · exact goodLine_rewrap measure maxWidth _ hg hne
    · rw [if_neg hsnd] at hL
      obtain ⟨hne, hg⟩ := hfold.1 L hL
      exact goodLine_rewrap measure maxWidth L hg hne
  refine ⟨hmain, ?_⟩
  refine sum_map_length_one _ _ (fun L hL => ?_)
  rw [hmain L hL]
  rfl

/-- Witness for `wrapLines_idempotent`: re-wrapping the first output line of
wrapping `"ab cd"` at width 3 yields that line alone. -/
theorem wrapLines_idempotent_witness :
    wrapLines (fun w => (w.length : ℚ)) 3 "ab".toList = ["ab".toList] :=
  (wrapLines_idempotent (fun w => (w.length : ℚ)) 3 "ab cd".toList).1 "ab".toList (by decide)

theorem splitOn_headD {α : Type} [DecidableEq α] (a : α) :
    ∀ (l : List α), (l.splitOn a).headD [] = l.takeWhile (fun x => x != a) := by
  intro l
  induction l with
  | nil => rfl
  | cons c cs ih =>
    simp only [List.splitOn] at ih ⊢
    rw [List.splitOnP_cons]
    cases hca : c == a with
    | true =>
      have hbne : (c != a) = false := by simp [bne, hca]
      simp [List.takeWhile_cons, hbne]
    | false =>
      have hbne : (c != a) = true := by simp [bne, hca]
      obtain ⟨hd, tl, he⟩ : ∃ hd tl, cs.splitOnP (fun x => x == a) = hd :: tl := by
        cases h : cs.splitOnP (fun x => x == a) with
        | nil => exact absurd h (List.splitOnP_ne_nil _ cs)
        | cons u v => exact ⟨u, v, rfl⟩
      rw [he] at ih
      simp only [List.headD_cons] at ih
      simp [he, List.modifyHead_cons, List.takeWhile_cons, hbne, ih]

theorem dropWhile_ne_head {α : Type} [DecidableEq α] (a : α) :
    ∀ (l : List α), a ∈ l →
      l.dropWhile (fun x => x != a) = a :: (l.dropWhile (fun x => x != a)).tail := by
  intro l
  induction l with
  | nil => intro h; simp at h
  | cons c cs ih =>
    intro h
    by_cases hca : c = a
    · subst hca
      rw [List.dropWhile_cons, if_neg (by simp)]
      rfl
    · rw [List.dropWhile_cons, if_pos (by simp [hca])]
      exact ih ((List.mem_cons.mp h).resolve_left (fun hh => hca hh.symm))

/-- C5: for every line containing the delimiter, the parsed title is the
trimmed segment before the first `|` and the parsed body is the trimmed
segment after the first `|` (the text up to the following `|`, if any); for
every line without the delimiter the body is absent (`undefined`). -/
theorem parseLine_segments (line : Str) :
    ('|' ∈ line →
        (parseLine line).title = specTitle line ∧
          (parseLine line).body = some (specBodySegment line)) ∧
      ('|' ∉ line →
        (parseLine line).title = trim line ∧ (parseLine line).body = none) := by
  constructor
  · intro hmem
    have hdecomp : line = line.takeWhile (fun x => x != '|')
        ++ '|' :: (line.dropWhile (fun x => x != '|')).tail := by
      conv_lhs => rw [← List.takeWhile_append_dropWhile (fun x => x != '|') line,
        dropWhile_ne_head '|' line hmem]
    have htake : ∀ x ∈ line.takeWhile (fun y => y != '|'), ¬ (x == '|') = true := by
      intro x hx
      have hx' := List.mem_takeWhile_imp hx
      simp only [bne_iff_ne] at hx'
      simpa using hx'
    have hsplit : line.splitOn '|' =
        (line.takeWhile (fun x => x != '|'))
          :: ((line.dropWhile (fun x => x != '|')).tail).splitOn '|' := by
      conv_lhs => rw [hdecomp]
      simp only [List.splitOn]
      exact List.splitOnP_first _ _ htake '|' (by simp) _
    have hnn := List.splitOnP_ne_nil (fun x => x == '|')
      ((line.dropWhile (fun x => x != '|')).tail)
    obtain ⟨hd, tl, he⟩ : ∃ hd tl,
        ((line.dropWhile (fun x => x != '|')).tail).splitOn '|' = hd :: tl := by
      cases h : ((line.dropWhile (fun x => x != '|')).tail).splitOn '|' with
      | nil => exact absurd h (by simpa [List.splitOn] using hnn)
      | cons u v => exact ⟨u, v, rfl⟩
    have hhd :
        hd = ((line.dropWhile (fun x => x != '|')).tail).takeWhile (fun x => x != '|') := by
      have hh := splitOn_headD '|' ((line.dropWhile (fun x => x != '|')).tail)
      rw [he, List.headD_cons] at hh
      exact hh
    constructor
    · simp [parseLine, hsplit, specTitle]
    · simp only [parseLine, hsplit, he, List.map_cons, List.getElem?_cons_succ,
        List.getElem?_cons_zero, specBodySegment]
      rw [hhd]
  · intro hnot
    have hsplit : line.splitOn '|' = [line] := by
      simp only [List.splitOn]
      refine List.splitOnP_eq_single _ _ ?_
      intro x hx
      simp only [beq_iff_eq]
      intro h
      exact hnot (h ▸ hx)
    simp [parseLine, hsplit]

/-- Witness for `parseLine_segments` at the line `"a|b|c"`: the title is the
trimmed text before the first `|` and the body is the trimmed segment
between the first and second `|`. -/
theorem parseLine_segments_witness :
    (parseLine "a|b|c".toList).title = specTitle "a|b|c".toList ∧
      (parseLine "a|b|c".toList).body = some (specBodySegment "a|b|c".toList) :=
  (parseLine_segments "a|b|c".toList).1 (by decide)

end Lumina
